import Mathlib

/-!
Verification of the distributed file system's dispatcher (S1) and the
type-specific backend storage services (S2/S3/S4).

The definitions below are shallow embeddings of the C source: the routing
if-chains of `handle_upload`, `handle_download`, `handle_remove` and
`handle_downltar` in S1.c, the `STORE` receive loop shared by the backends,
the directory-pruning loops, the `dispfnames` aggregation, and the small
pieces of `prcclient` command parsing that the properties refer to.
Filesystem state is modelled as an association list from component paths to
byte lists together with a list of existing directories; network transfers
are modelled by the byte lists actually delivered.
-/

namespace DFS

/-! ### Extension extraction: `strrchr(name, '.')` in S1.c -/

/-- Suffix of the character list starting at the LAST occurrence of a dot,
including the dot itself, as `strrchr(name, '.')` returns it. -/
def lastSuffixFromDot : List Char → Option (List Char)
  | [] => none
  | c :: cs =>
    match lastSuffixFromDot cs with
    | some r => some r
    | none => if c = '.' then some (c :: cs) else none

/-- The extension of a file name, `none` when the name holds no dot. -/
def extOf (s : String) : Option String :=
  (lastSuffixFromDot s.data).map (fun l => String.mk l)

/-! ### Backend routing tables of S1.c -/

/-- The three type-specific storage servers. -/
inductive Backend
  | S2
  | S3
  | S4
deriving DecidableEq

/-- Forwarding target chosen by `handle_upload` (S1.c lines 520-530) once the
`.c` case has been handled locally: `.pdf` goes to S2, `.txt` to S3, `.zip`
to S4, anything else is rejected. -/
def uploadForwardTarget (ext : String) : Option Backend :=
  if ext = (".pdf") then some Backend.S2
  else if ext = (".txt") then some Backend.S3
  else if ext = (".zip") then some Backend.S4
  else none

/-- Possible dispatches of `handle_download` (S1.c lines 648-726). -/
inductive DownloadAction
  | errorInvalidPath
  | localRead
  | forwardGet (b : Backend)
  | errorUnsupported
deriving DecidableEq

/-- Dispatch of `handle_download`: extension from `strrchr(filePath, '.')`;
`.c` is read locally, `.pdf` is fetched from S2, `.txt` from S3, and every
other extension answers `ERROR: Unsupported file type` (S1.c lines 716-726). -/
def handle_download_action (filePath : String) : DownloadAction :=
  match extOf filePath with
  | none => DownloadAction.errorInvalidPath
  | some ext =>
    if ext = (".c") then DownloadAction.localRead
    else if ext = (".pdf") then DownloadAction.forwardGet Backend.S2
    else if ext = (".txt") then DownloadAction.forwardGet Backend.S3
    else DownloadAction.errorUnsupported

/-- The immediate error line `handle_download` sends for the two error
dispatches, before any backend is contacted. -/
def downloadErrorResponse : DownloadAction → Option String
  | DownloadAction.errorInvalidPath => some ("ERROR: Invalid file path\n")
  | DownloadAction.errorUnsupported => some ("ERROR: Unsupported file type\n")
  | DownloadAction.localRead => none
  | DownloadAction.forwardGet _ => none

/-- The not-found error line of the backends' `GET` handler (S1.c line 1643,
S3.c line 248, S4 line 229), relayed verbatim by the dispatcher. -/
def notFoundResponse : String := "ERROR: File not found\n"

/-- Possible dispatches of `handle_remove` (S1.c lines 828-918). -/
inductive RemoveAction
  | noExt
  | localUnlink
  | forwardDel (b : Backend)
  | unsupported
deriving DecidableEq

/-- Dispatch of `handle_remove`: `.c` unlinks locally, `.pdf` issues `DEL` to
S2, `.txt` to S3, and every other extension makes the handler return -1
without contacting any backend (S1.c lines 909-918). -/
def handle_remove_action (filePath : String) : RemoveAction :=
  match extOf filePath with
  | none => RemoveAction.noExt
  | some ext =>
    if ext = (".c") then RemoveAction.localUnlink
    else if ext = (".pdf") then RemoveAction.forwardDel Backend.S2
    else if ext = (".txt") then RemoveAction.forwardDel Backend.S3
    else RemoveAction.unsupported

/-- Response `prcclient` sends for a `removef` result (S1.c lines 369-376):
result 0 reports success, any other result the generic removal error. -/
def removeResultResponse (res : Int) : String :=
  if res = 0 then "SUCCESS: File removed\n" else "ERROR: File not found or cannot remove\n"

/-! ### `handle_downltar` dispatch (S1.c lines 966-1180) -/

/-- Possible dispatches of `handle_downltar`. -/
inductive TarAction
  | errorInvalid
  | localTarC
  | forwardTar (b : Backend)
  | errorUnsupported
deriving DecidableEq

/-- Dispatch of `handle_downltar`: the file type is first validated against
the four known extensions (S1.c lines 969-974); `.c` is archived locally,
`.pdf` and `.txt` are proxied to S2/S3, and `.zip`, having passed
validation, falls through to the trailing unsupported-filetype error
(S1.c lines 1176-1179). -/
def handle_downltar_action (fileType : String) : TarAction :=
  if fileType ≠ (".c") ∧ fileType ≠ (".pdf") ∧ fileType ≠ (".txt") ∧ fileType ≠ (".zip") then
    TarAction.errorInvalid
  else if fileType = (".c") then TarAction.localTarC
  else if fileType = (".pdf") then TarAction.forwardTar Backend.S2
  else if fileType = (".txt") then TarAction.forwardTar Backend.S3
  else TarAction.errorUnsupported

/-- Whether a `handle_downltar` dispatch opens a connection to a backend. -/
def tarActionContactsBackend : TarAction → Bool
  | TarAction.forwardTar _ => true
  | _ => false

/-- The error line sent immediately for the two error dispatches of
`handle_downltar`, with no size line and no payload. -/
def tarActionImmediateError : TarAction → Option String
  | TarAction.errorInvalid => some ("ERROR: Invalid filetype (supported: .c, .pdf, .txt, .zip)\n")
  | TarAction.errorUnsupported => some ("ERROR: Unsupported filetype\n")
  | TarAction.localTarC => none
  | TarAction.forwardTar _ => none

/-! ### `atol` and the `uploadf` size check in `prcclient` (S1.c lines 310-334) -/

/-- Whitespace as `isspace` classifies it for `atol`. -/
def isSpaceChar (c : Char) : Bool :=
  (c == ' ') || (c == '\t') || (c == '\n') || (c == '\r') ||
    (c == Char.ofNat 11) || (c == Char.ofNat 12)

/-- Value of the leading decimal-digit run of a character list. -/
def atolDigits (l : List Char) : Int :=
  Int.ofNat ((l.takeWhile (fun c => c.isDigit)).foldl (fun acc c => acc * 10 + (c.toNat - 48)) 0)

/-- C `atol`: skip whitespace, read an optional sign, then the digit run. -/
def atolM (s : String) : Int :=
  match s.data.dropWhile isSpaceChar with
  | '-' :: rest => - atolDigits rest
  | '+' :: rest => atolDigits rest
  | rest => atolDigits rest

/-- Outcome of the `uploadf` argument handling inside `prcclient`. -/
inductive UploadfStep
  | respond (msg : String) (payloadRead : Nat) (connectionContinues : Bool)
  | callHandler (size : Int)
deriving DecidableEq

/-- The `uploadf` branch of `prcclient` (S1.c lines 310-334): missing tokens
report a format error; a size that `atol` parses as negative reports
`ERROR: Invalid file size` at once, reads no payload byte, and the command
loop continues; otherwise `handle_upload` is invoked. -/
def prcclient_uploadf_step (filename destPath sizeStr : Option String) : UploadfStep :=
  match filename, destPath, sizeStr with
  | some _, some _, some z =>
    if atolM z < 0 then UploadfStep.respond ("ERROR: Invalid file size\n") 0 true
    else UploadfStep.callHandler (atolM z)
  | _, _, _ => UploadfStep.respond ("ERROR: Invalid uploadf command format\n") 0 true

/-! ### Filesystem model shared by the tiers

Files are an association list from component paths to byte contents;
directories are the list of directory paths that exist. -/

structure FS where
  files : List (List String × List Nat)
  dirs : List (List String)
deriving DecidableEq

/-- Lookup of a file's content by its path. -/
def assocLookup : List (List String × List Nat) → List String → Option (List Nat)
  | [], _ => none
  | e :: es, k => if e.1 = k then some e.2 else assocLookup es k

/-- `remove(path)`: drop every entry stored at the path. -/
def assocErase : List (List String × List Nat) → List String → List (List String × List Nat)
  | [], _ => []
  | e :: es, k => if e.1 = k then assocErase es k else e :: assocErase es k

/-- `fopen(path, "wb")` plus a full write: the path now holds exactly `v`. -/
def assocInsert (l : List (List String × List Nat)) (k : List String) (v : List Nat) :
    List (List String × List Nat) :=
  (k, v) :: assocErase l k

/-- Every directory `ensure_directory_exists` (S1.c lines 180-224) or the
backends' `mkdir` walk creates on the way down to `d`. -/
def prefixesOf (d : List String) : List (List String) :=
  (List.range d.length).map (fun i => d.take (i + 1))

/-- Component-path prefix test. -/
def leadsTo : List String → List String → Bool
  | [], _ => true
  | _ :: _, [] => false
  | a :: as, b :: bs => if a = b then leadsTo as bs else false

/-- `d` properly contains `p`: `d` is a prefix of `p` and differs from it. -/
def isUnderB (d p : List String) : Bool :=
  leadsTo d p && decide (d ≠ p)

/-- `rmdir(d)` succeeds exactly when no file and no other directory lies
inside `d`. -/
def dirEmptyB (fs : FS) (d : List String) : Bool :=
  fs.files.all (fun f => !(isUnderB d f.1)) && fs.dirs.all (fun e => !(isUnderB d e))

/-- The upward pruning loop of S1.c lines 624-639 (and S2/S3 `DEL`): starting
at `d`, while the current directory differs from the base, remove it if
`rmdir` succeeds and climb to the parent, otherwise stop. The loop strips one
component per step, so `d.length + 1` steps of fuel always suffice; running
out of components (no slash left) also stops the loop. -/
def pruneUpFuel : Nat → List String → FS → List String → FS
  | 0, _, fs, _ => fs
  | Nat.succ fuel, base, fs, d =>
    if d = base then fs
    else if d = [] then fs
    else if decide (d ∈ fs.dirs) && dirEmptyB fs d then
      pruneUpFuel fuel base ⟨fs.files, fs.dirs.filter (fun e => decide (e ≠ d))⟩ d.dropLast
    else fs

/-- The pruning loop with enough fuel for its starting directory. -/
def pruneUp (base : List String) (fs : FS) (d : List String) : FS :=
  pruneUpFuel (d.length + 1) base fs d

theorem leadsTo_refl (l : List String) : leadsTo l l = true := by
  induction l with
  | nil => rfl
  | cons a as ih => simp [leadsTo, ih]

theorem leadsTo_trans {a b c : List String} (h1 : leadsTo a b = true)
    (h2 : leadsTo b c = true) : leadsTo a c = true := by
  induction a generalizing b c with
  | nil => rfl
  | cons x xs ih =>
    cases b with
    | nil => simp [leadsTo] at h1
    | cons y ys =>
      cases c with
      | nil => simp [leadsTo] at h2
      | cons z zs =>
        simp only [leadsTo] at h1 h2 ⊢
        by_cases hxy : x = y
        · rw [if_pos hxy] at h1
          by_cases hyz : y = z
          · rw [if_pos hyz] at h2
            rw [if_pos (hxy.trans hyz)]
            exact ih h1 h2
          · rw [if_neg hyz] at h2
            exact absurd h2 (by simp)
        · rw [if_neg hxy] at h1
          exact absurd h1 (by simp)

theorem leadsTo_dropLast (l : List String) : leadsTo l.dropLast l = true := by
  induction l with
  | nil => rfl
  | cons a as ih =>
    cases as with
    | nil => rfl
    | cons b bs =>
      show leadsTo (a :: (b :: bs).dropLast) (a :: b :: bs) = true
      simp only [leadsTo]
      simpa using ih

theorem leadsTo_length_le {a b : List String} (h : leadsTo a b = true) :
    a.length ≤ b.length := by
  induction a generalizing b with
  | nil => simp
  | cons x xs ih =>
    cases b with
    | nil => simp [leadsTo] at h
    | cons y ys =>
      simp only [leadsTo] at h
      by_cases hxy : x = y
      · rw [if_pos hxy] at h
        have := ih h
        simp only [List.length_cons]
        omega
      · rw [if_neg hxy] at h
        exact absurd h (by simp)

theorem leadsTo_eq_of_length_le {a b : List String} (h : leadsTo a b = true)
    (hl : b.length ≤ a.length) : a = b := by
  induction a generalizing b with
  | nil =>
    cases b with
    | nil => rfl
    | cons y ys => simp at hl
  | cons x xs ih =>
    cases b with
    | nil => simp [leadsTo] at h
    | cons y ys =>
      simp only [leadsTo] at h
      by_cases hxy : x = y
      · rw [if_pos hxy] at h
        have hxs := ih h (by simp only [List.length_cons] at hl; omega)
        rw [hxy, hxs]
      · rw [if_neg hxy] at h
        exact absurd h (by simp)

theorem leadsTo_append_left (base p q : List String) (h : leadsTo p q = true) :
    leadsTo (base ++ p) (base ++ q) = true := by
  induction base with
  | nil => simpa using h
  | cons a as ih =>
    simp only [List.cons_append, leadsTo]
    simpa using ih

theorem leadsTo_take (l : List String) (n : Nat) : leadsTo (l.take n) l = true := by
  induction l generalizing n with
  | nil => simp [leadsTo]
  | cons x xs ih =>
    cases n with
    | zero => rfl
    | succ m =>
      rw [List.take_succ_cons]
      simp only [leadsTo]
      simpa using ih m

theorem take_of_leadsTo {p d : List String} (h : leadsTo p d = true) :
    d.take p.length = p := by
  induction p generalizing d with
  | nil => rfl
  | cons x xs ih =>
    cases d with
    | nil => simp [leadsTo] at h
    | cons y ys =>
      simp only [leadsTo] at h
      by_cases hxy : x = y
      · rw [if_pos hxy] at h
        rw [List.length_cons, List.take_succ_cons, ih h, hxy]
      · rw [if_neg hxy] at h
        exact absurd h (by simp)

theorem leadsTo_of_le {a b c : List String} (ha : leadsTo a c = true)
    (hb : leadsTo b c = true) (hl : a.length ≤ b.length) : leadsTo a b = true := by
  induction c generalizing a b with
  | nil =>
    cases a with
    | nil => rfl
    | cons x xs => simp [leadsTo] at ha
  | cons z zs ih =>
    cases a with
    | nil => rfl
    | cons x xs =>
      cases b with
      | nil => simp at hl
      | cons y ys =>
        simp only [leadsTo] at ha hb ⊢
        by_cases hx : x = z
        · rw [if_pos hx] at ha
          by_cases hy : y = z
          · rw [if_pos hy] at hb
            rw [if_pos (hx.trans hy.symm)]
            exact ih ha hb (by simp only [List.length_cons] at hl; omega)
          · rw [if_neg hy] at hb
            exact absurd hb (by simp)
        · rw [if_neg hx] at ha
          exact absurd ha (by simp)

theorem leadsTo_dropLast_of_ne {p q : List String} (h : leadsTo p q = true)
    (hne : p ≠ q) : leadsTo p q.dropLast = true := by
  have hlt : p.length < q.length := by
    have hle := leadsTo_length_le h
    rcases Nat.lt_or_ge p.length q.length with h1 | h1
    · exact h1
    · exact absurd (leadsTo_eq_of_length_le h h1) hne
  exact leadsTo_of_le h (leadsTo_dropLast q) (by rw [List.length_dropLast]; omega)

theorem isUnderB_mono {c d y : List String} (hcd : leadsTo c d = true)
    (h : isUnderB d y = true) : isUnderB c y = true := by
  unfold isUnderB at h ⊢
  rw [Bool.and_eq_true] at h
  have hdy := h.1
  have hne : d ≠ y := of_decide_eq_true h.2
  rw [Bool.and_eq_true]
  refine ⟨leadsTo_trans hcd hdy, decide_eq_true ?_⟩
  intro hcy
  subst hcy
  have h1 := leadsTo_length_le hcd
  have h2 := leadsTo_length_le hdy
  exact hne (leadsTo_eq_of_length_le hdy (by omega))

theorem dropLast_cons_ne_nil {α : Type} (a : α) (l : List α) (h : l ≠ []) :
    (a :: l).dropLast = a :: l.dropLast := by
  cases l with
  | nil => exact absurd rfl h
  | cons b bs => rfl

theorem dropLast_append_right (base sub : List String) (h : sub ≠ []) :
    (base ++ sub).dropLast = base ++ sub.dropLast := by
  induction base with
  | nil => rfl
  | cons a as ih =>
    have hne : as ++ sub ≠ [] := by
      intro hc
      rcases List.append_eq_nil.mp hc with ⟨h1, h2⟩
      exact h h2
    rw [List.cons_append, dropLast_cons_ne_nil _ _ hne, ih, List.cons_append]

theorem take_one_of_dropLast_ne_nil (l : List String) (h : l.dropLast ≠ []) :
    l.dropLast.take 1 = l.take 1 := by
  cases l with
  | nil => exact absurd rfl h
  | cons x xs =>
    cases xs with
    | nil => exact absurd rfl h
    | cons y ys => rfl

theorem append_ne_of_right_ne_nil (base sub : List String) (h : sub ≠ []) :
    base ++ sub ≠ base := by
  intro hc
  have hlen := congrArg List.length hc
  rw [List.length_append] at hlen
  have hz : sub.length = 0 := by omega
  exact h (List.length_eq_zero.mp hz)

theorem append_ne_nil_right (base sub : List String) (h : sub ≠ []) :
    base ++ sub ≠ [] := by
  intro hc
  rcases List.append_eq_nil.mp hc with ⟨h1, h2⟩
  exact h h2

theorem mem_prefixesOf {x d : List String} (h : leadsTo x d = true) (hx : x ≠ []) :
    x ∈ prefixesOf d := by
  unfold prefixesOf
  rw [List.mem_map]
  refine ⟨x.length - 1, ?_, ?_⟩
  · rw [List.mem_range]
    have h1 := leadsTo_length_le h
    have h2 : 0 < x.length := List.length_pos.mpr hx
    omega
  · have h2 : 0 < x.length := List.length_pos.mpr hx
    have h3 : x.length - 1 + 1 = x.length := by omega
    rw [h3, take_of_leadsTo h]

theorem pruneUpFuel_files (fuel : Nat) (base : List String) (fs : FS) (d : List String) :
    (pruneUpFuel fuel base fs d).files = fs.files := by
  induction fuel generalizing fs d with
  | zero => rfl
  | succ n ih =>
    unfold pruneUpFuel
    by_cases h1 : d = base
    · rw [if_pos h1]
    rw [if_neg h1]
    by_cases h2 : d = []
    · rw [if_pos h2]
    rw [if_neg h2]
    by_cases h3 : (decide (d ∈ fs.dirs) && dirEmptyB fs d) = true
    · rw [if_pos h3]
      exact ih _ _
    · rw [if_neg h3]

/-- Soundness of the pruning loop: every directory it removes is distinct
from the base directory, lies on the component chain leading to the starting
directory, and contained no file when it was removed (the loop never touches
files, so this is equivalent to containing no file afterwards). -/
theorem pruneUpFuel_removed (fuel : Nat) (base : List String) (fs : FS) (d : List String) :
    ∀ x, x ∈ fs.dirs → x ∉ (pruneUpFuel fuel base fs d).dirs →
      x ≠ base ∧ leadsTo x d = true ∧
        fs.files.all (fun f => !(isUnderB x f.1)) = true := by
  induction fuel generalizing fs d with
  | zero =>
    intro x hin hout
    exact absurd hin hout
  | succ n ih =>
    intro x hin hout
    unfold pruneUpFuel at hout
    by_cases h1 : d = base
    · rw [if_pos h1] at hout
      exact absurd hin hout
    rw [if_neg h1] at hout
    by_cases h2 : d = []
    · rw [if_pos h2] at hout
      exact absurd hin hout
    rw [if_neg h2] at hout
    by_cases h3 : (decide (d ∈ fs.dirs) && dirEmptyB fs d) = true
    · rw [if_pos h3] at hout
      by_cases hx : x = d
      · subst hx
        rw [Bool.and_eq_true] at h3
        have hemp := h3.2
        unfold dirEmptyB at hemp
        rw [Bool.and_eq_true] at hemp
        exact ⟨fun hb => h1 hb, leadsTo_refl x, hemp.1⟩
      · have hin2 : x ∈ fs.dirs.filter (fun e => decide (e ≠ d)) := by
          rw [List.mem_filter]
          exact ⟨hin, decide_eq_true hx⟩
        have hr := ih ⟨fs.files, fs.dirs.filter (fun e => decide (e ≠ d))⟩ d.dropLast x hin2 hout
        exact ⟨hr.1, leadsTo_trans hr.2.1 (leadsTo_dropLast d), hr.2.2⟩
    · rw [if_neg h3] at hout
      exact absurd hin hout

theorem pruneUpFuel_dirs_subset (fuel : Nat) (base : List String) (fs : FS)
    (d : List String) : ∀ x, x ∈ (pruneUpFuel fuel base fs d).dirs → x ∈ fs.dirs := by
  induction fuel generalizing fs d with
  | zero =>
    intro x hx
    exact hx
  | succ n ih =>
    intro x hx
    unfold pruneUpFuel at hx
    by_cases h1 : d = base
    · rw [if_pos h1] at hx
      exact hx
    rw [if_neg h1] at hx
    by_cases h2 : d = []
    · rw [if_pos h2] at hx
      exact hx
    rw [if_neg h2] at hx
    by_cases h3 : (decide (d ∈ fs.dirs) && dirEmptyB fs d) = true
    · rw [if_pos h3] at hx
      have hm := ih _ _ x hx
      exact (List.mem_filter.mp hm).1
    · rw [if_neg h3] at hx
      exact hx

/-- Completeness of the pruning loop: starting from `base ++ sub`, when the
directory chain from the base down to the starting directory exists, no file
lies under its topmost link, and every directory under that link is itself on
the chain, the loop removes every chain directory — all now-empty ancestors
up to, but not including, the base. -/
theorem pruneUpFuel_complete (fuel : Nat) (base : List String) (fs : FS)
    (sub : List String) (hs : sub ≠ []) (hfuel : sub.length < fuel)
    (hf : fs.files.all (fun f => !(isUnderB (base ++ sub.take 1) f.1)) = true)
    (hd : ∀ e ∈ fs.dirs, isUnderB (base ++ sub.take 1) e = true →
      leadsTo e (base ++ sub) = true)
    (hin : ∀ p, p ≠ [] → leadsTo p sub = true → (base ++ p) ∈ fs.dirs) :
    ∀ p, p ≠ [] → leadsTo p sub = true →
      (base ++ p) ∉ (pruneUpFuel fuel base fs (base ++ sub)).dirs := by
  induction fuel generalizing fs sub with
  | zero => exact absurd hfuel (Nat.not_lt_zero _)
  | succ n ih =>
    intro p hp hps
    have hne1 : base ++ sub ≠ base := append_ne_of_right_ne_nil base sub hs
    have hne2 : base ++ sub ≠ [] := append_ne_nil_right base sub hs
    have hmem : base ++ sub ∈ fs.dirs := hin sub hs (leadsTo_refl sub)
    have htop : leadsTo (base ++ sub.take 1) (base ++ sub) = true :=
      leadsTo_append_left base _ _ (leadsTo_take sub 1)
    have hempty : dirEmptyB fs (base ++ sub) = true := by
      unfold dirEmptyB
      rw [Bool.and_eq_true]
      constructor
      · rw [List.all_eq_true] at hf ⊢
        intro f hfmem
        have hnotunder := hf f hfmem
        cases hu : isUnderB (base ++ sub) f.1 with
        | false => rfl
        | true =>
          exfalso
          have hu1 := isUnderB_mono htop hu
          rw [hu1] at hnotunder
          exact absurd hnotunder (by decide)
      · rw [List.all_eq_true]
        intro e hemem
        cases hu : isUnderB (base ++ sub) e with
        | false => rfl
        | true =>
          exfalso
          have hu1 := isUnderB_mono htop hu
          have he2 := hd e hemem hu1
          unfold isUnderB at hu
          rw [Bool.and_eq_true] at hu
          have h1 := leadsTo_length_le hu.1
          have h2 := leadsTo_length_le he2
          have heq : e = base ++ sub := leadsTo_eq_of_length_le he2 (by omega)
          exact (of_decide_eq_true hu.2) heq.symm
    unfold pruneUpFuel
    rw [if_neg hne1, if_neg hne2,
      if_pos (by rw [Bool.and_eq_true]; exact ⟨decide_eq_true hmem, hempty⟩)]
    by_cases hpsub : p = sub
    · subst hpsub
      intro hcon
      have hm := pruneUpFuel_dirs_subset n base _ _ _ hcon
      rw [List.mem_filter] at hm
      exact (of_decide_eq_true hm.2) rfl
    · have hsubdrop : (base ++ sub).dropLast = base ++ sub.dropLast :=
        dropLast_append_right base sub hs
      rw [hsubdrop]
      have hpd : leadsTo p sub.dropLast = true := leadsTo_dropLast_of_ne hps hpsub
      have hdne : sub.dropLast ≠ [] := by
        intro hnil
        rw [hnil] at hpd
        cases p with
        | nil => exact hp rfl
        | cons a as => simp [leadsTo] at hpd
      have htake1 : sub.dropLast.take 1 = sub.take 1 :=
        take_one_of_dropLast_ne_nil sub hdne
      have hpos : 0 < sub.length := List.length_pos.mpr hs
      refine ih ⟨fs.files, fs.dirs.filter (fun e => decide (e ≠ base ++ sub))⟩
        sub.dropLast hdne (by rw [List.length_dropLast]; omega) ?_ ?_ ?_ p hp hpd
      · rw [htake1]
        exact hf
      · intro e hemem hu
        rw [htake1] at hu
        rw [List.mem_filter] at hemem
        have he2 := hd e hemem.1 hu
        have hene : e ≠ base ++ sub := of_decide_eq_true hemem.2
        have he3 := leadsTo_dropLast_of_ne he2 hene
        rw [hsubdrop] at he3
        exact he3
      · intro q hq hqd
        rw [List.mem_filter]
        constructor
        · exact hin q hq (leadsTo_trans hqd (leadsTo_dropLast sub))
        · apply decide_eq_true
          intro hc
          have hq2 : q = sub := List.append_cancel_left hc
          rw [hq2] at hqd
          have h1 := leadsTo_length_le hqd
          rw [List.length_dropLast] at h1
          have h2 : 0 < sub.length := List.length_pos.mpr hs
          omega

theorem assocLookup_assocErase (l : List (List String × List Nat)) (k : List String) :
    assocLookup (assocErase l k) k = none := by
  induction l with
  | nil => rfl
  | cons e es ih =>
    unfold assocErase
    by_cases h : e.1 = k
    · rw [if_pos h]
      exact ih
    · rw [if_neg h]
      unfold assocLookup
      rw [if_neg h]
      exact ih

theorem assocLookup_assocInsert (l : List (List String × List Nat)) (k : List String)
    (v : List Nat) : assocLookup (assocInsert l k v) k = some v := by
  unfold assocInsert assocLookup
  rw [if_pos rfl]

theorem assocErase_idem (l : List (List String × List Nat)) (k : List String) :
    assocErase (assocErase l k) k = assocErase l k := by
  induction l with
  | nil => rfl
  | cons e es ih =>
    by_cases h : e.1 = k
    · show assocErase (if e.1 = k then assocErase es k else e :: assocErase es k) k
        = if e.1 = k then assocErase es k else e :: assocErase es k
      rw [if_pos h]
      exact ih
    · show assocErase (if e.1 = k then assocErase es k else e :: assocErase es k) k
        = if e.1 = k then assocErase es k else e :: assocErase es k
      rw [if_neg h]
      show (if e.1 = k then assocErase (assocErase es k) k
          else e :: assocErase (assocErase es k) k) = e :: assocErase es k
      rw [if_neg h, ih]

theorem assocErase_assocInsert (l : List (List String × List Nat)) (k : List String)
    (v : List Nat) : assocErase (assocInsert l k v) k = assocErase l k := by
  show (if (k, v).1 = k then assocErase (assocErase l k) k
      else (k, v) :: assocErase (assocErase l k) k) = assocErase l k
  rw [if_pos rfl]
  exact assocErase_idem l k

theorem mem_assocErase {l : List (List String × List Nat)} {k : List String}
    {e : List String × List Nat} (h : e ∈ assocErase l k) : e ∈ l := by
  induction l with
  | nil => exact absurd h (List.not_mem_nil e)
  | cons x xs ih =>
    unfold assocErase at h
    by_cases hx : x.1 = k
    · rw [if_pos hx] at h
      exact List.mem_cons_of_mem x (ih h)
    · rw [if_neg hx] at h
      rcases List.mem_cons.mp h with h1 | h1
      · rw [h1]
        exact List.mem_cons_self x xs
      · exact List.mem_cons_of_mem x (ih h1)

/-! ### `handle_upload` for forwarded classes (S1.c lines 418-643) -/

/-- State after the dispatcher has received the payload and written the local
copy: the file exists at `base ++ destSub ++ [filename]` and the directory
chain down to it exists (S1.c lines 456-508). -/
def localWriteFS (base destSub : List String) (filename : String) (content : List Nat)
    (fs : FS) : FS :=
  ⟨assocInsert fs.files ((base ++ destSub) ++ [filename]) content,
   prefixesOf (base ++ destSub) ++ fs.dirs⟩

/-- The tail of `handle_upload` for a forwarded file (S1.c lines 595-642):
after the backend's acknowledgement is read, the local copy is removed in
every case; on `SUCCESS` the empty ancestor directories are pruned up to the
base and 0 is returned, otherwise -1 is returned. -/
def uploadForwardPhase (base destSub : List String) (filename : String) (fs1 : FS)
    (ack : Bool) : FS × Int :=
  if ack then
    (pruneUp base ⟨assocErase fs1.files ((base ++ destSub) ++ [filename]), fs1.dirs⟩
      (base ++ destSub), 0)
  else
    (⟨assocErase fs1.files ((base ++ destSub) ++ [filename]), fs1.dirs⟩, -1)

/-- `handle_upload` (S1.c lines 418-643) over the local filesystem state:
no extension fails without touching the state; a recognized extension first
writes the local copy; `.c` keeps it and succeeds; `.pdf`/`.txt`/`.zip`
stream it to the owning backend whose acknowledgement is `ack`; any other
extension removes the local copy and fails. -/
def handle_upload_model (base destSub : List String) (filename : String)
    (content : List Nat) (fs : FS) (ack : Bool) : FS × Int :=
  match extOf filename with
  | none => (fs, -1)
  | some ext =>
    if ext = (".c") then (localWriteFS base destSub filename content fs, 0)
    else
      match uploadForwardTarget ext with
      | none =>
        (⟨assocErase (localWriteFS base destSub filename content fs).files
            ((base ++ destSub) ++ [filename]),
          (localWriteFS base destSub filename content fs).dirs⟩, -1)
      | some _ => uploadForwardPhase base destSub filename
          (localWriteFS base destSub filename content fs) ack

theorem uploadForwardPhase_clean (base destSub : List String) (filename : String)
    (fs1 : FS) (ack : Bool) :
    assocLookup (uploadForwardPhase base destSub filename fs1 ack).1.files
        ((base ++ destSub) ++ [filename]) = none ∧
    (uploadForwardPhase base destSub filename fs1 ack).2 = (if ack = true then 0 else -1) ∧
    (∀ d, d ∈ fs1.dirs → d ∉ (uploadForwardPhase base destSub filename fs1 ack).1.dirs →
      d ≠ base ∧ leadsTo d (base ++ destSub) = true ∧
        (uploadForwardPhase base destSub filename fs1 ack).1.files.all
          (fun f => !(isUnderB d f.1)) = true) := by
  cases ack with
  | false =>
    refine ⟨assocLookup_assocErase _ _, rfl, ?_⟩
    intro d hin hout
    exact absurd hin hout
  | true =>
    refine ⟨?_, rfl, ?_⟩
    · show assocLookup (pruneUp base
        ⟨assocErase fs1.files ((base ++ destSub) ++ [filename]), fs1.dirs⟩
        (base ++ destSub)).files ((base ++ destSub) ++ [filename]) = none
      rw [pruneUp, pruneUpFuel_files]
      exact assocLookup_assocErase _ _
    · intro d hin hout
      have hr := pruneUpFuel_removed ((base ++ destSub).length + 1) base
        ⟨assocErase fs1.files ((base ++ destSub) ++ [filename]), fs1.dirs⟩
        (base ++ destSub) d hin hout
      refine ⟨hr.1, hr.2.1, ?_⟩
      show (pruneUp base
        ⟨assocErase fs1.files ((base ++ destSub) ++ [filename]), fs1.dirs⟩
        (base ++ destSub)).files.all (fun f => !(isUnderB d f.1)) = true
      rw [pruneUp, pruneUpFuel_files]
      exact hr.2.2

/-! ### Backend `STORE` receive loop
(S1.c lines 1499-1603 for S2, S3.c lines 107-210, S4 lines 99-193) -/

/-- Backend response tokens for `STORE`. -/
inductive StoreResp
  | success
  | error
deriving DecidableEq

/-- The `STORE <path> <size>` handler, identical in shape across S2, S3 and
S4: create the directory chain, write the bytes actually received, and if
fewer than `declared` bytes arrived before the connection failed, delete the
partial file and answer `ERROR`, otherwise answer `SUCCESS`. -/
def backendStoreRun (base rel : List String) (declared : Nat) (received : List Nat)
    (fs : FS) : FS × StoreResp :=
  if received.length ≠ declared then
    (⟨assocErase (assocInsert fs.files (base ++ rel) received) (base ++ rel),
      prefixesOf (base ++ rel).dropLast ++ fs.dirs⟩, StoreResp.error)
  else
    (⟨assocInsert fs.files (base ++ rel) received,
      prefixesOf (base ++ rel).dropLast ++ fs.dirs⟩, StoreResp.success)

/-! ### `dispfnames` aggregation (S1.c lines 1185-1387) -/

/-- A directory entry as `readdir` reports it. -/
structure DirEnt where
  name : String
  isReg : Bool
deriving DecidableEq

/-- The local scan loop of `handle_dispfnames` (S1.c lines 1228-1243): keep
the names of regular entries whose extension is `.c`, stopping once 256
names have been collected. -/
def scanGoC : List DirEnt → List String → List String
  | [], acc => acc.reverse
  | e :: es, acc =>
    if e.isReg = true ∧ extOf e.name = some (".c") then
      if 256 ≤ (e.name :: acc).length then (e.name :: acc).reverse
      else scanGoC es (e.name :: acc)
    else scanGoC es acc

/-- Local `.c` names collected for `dispfnames`. -/
def scanLocalC (entries : List DirEnt) : List String := scanGoC entries []

/-- `connect_and_list` token parsing (S1.c lines 1316-1325): the backend's
payload is split at newlines by `strtok_r`, which yields the non-empty
segments in order, and collection stops at 256 names. -/
def parseBackendList (payload : String) : List String :=
  ((payload.splitOn ("\n")).filter (fun t => decide (t ≠ ""))).take 256

/-- `qsort` with `strcmp` on a name group (S1.c lines 1336-1344). -/
def sortNames (g : List String) : List String :=
  List.insertionSort (fun a b => a ≤ b) g

/-- `strncat(dst, piece, cap - strlen(dst))`: append at most the space left
below the capacity. -/
def strncatCap (cap : Nat) (dst piece : List Char) : List Char :=
  dst ++ piece.take (cap - dst.length)

/-- The output-building loops of `handle_dispfnames` (S1.c lines 1346-1373):
the four groups are sorted, concatenated in the fixed order `.c`, `.pdf`,
`.txt`, `.zip`, and each name plus a newline is appended to the 2048-byte
output buffer with `strncat`, which caps the content at 2047 characters. -/
def dispOutput (cs ps ts zs : List String) : List Char :=
  ((sortNames cs ++ sortNames ps ++ sortNames ts ++ sortNames zs).map
      (fun n => n.data)).foldl
    (fun acc n => strncatCap 2047 (strncatCap 2047 acc n) ['\n']) []

/-- Untruncated rendering of consecutive names, one per line. -/
def catLines : List (List Char) → List Char
  | [] => []
  | n :: ns => (n ++ ['\n']) ++ catLines ns

/-- Untruncated rendering of a name group. -/
def nameLines (g : List String) : List Char := catLines (g.map (fun n => n.data))

/-- Response shape of `handle_dispfnames` (S1.c lines 1375-1385). -/
inductive DispResp
  | noFiles
  | sized (n : Nat) (body : List Char)
deriving DecidableEq

/-- Final dispatch of `handle_dispfnames`: an empty output elicits the
distinct no-files response, otherwise a length line and the payload. -/
def dispfnamesWire (cs ps ts zs : List String) : DispResp :=
  if (dispOutput cs ps ts zs).length = 0 then DispResp.noFiles
  else DispResp.sized (dispOutput cs ps ts zs).length (dispOutput cs ps ts zs)

/-- Bytes on the wire for each `dispfnames` response. -/
def dispWireBytes : DispResp → List Char
  | DispResp.noFiles => ("No files found\n").data
  | DispResp.sized n body => (toString n).data ++ '\n' :: body

theorem takeAll {α : Type} (l : List α) (n : Nat) (h : l.length ≤ n) : l.take n = l := by
  induction l generalizing n with
  | nil => simp
  | cons a as ih =>
    cases n with
    | zero => simp at h
    | succ m =>
      rw [List.take_succ_cons, ih m (by simpa using h)]

theorem strncatCap_le (cap : Nat) (dst piece : List Char) (h : dst.length ≤ cap) :
    (strncatCap cap dst piece).length ≤ cap := by
  unfold strncatCap
  rw [List.length_append, List.length_take]
  omega

theorem strncatCap_full (cap : Nat) (dst piece : List Char)
    (h : dst.length + piece.length ≤ cap) :
    strncatCap cap dst piece = dst ++ piece := by
  unfold strncatCap
  rw [takeAll piece _ (by omega)]

theorem foldl_strncat_le (names : List (List Char)) (acc : List Char)
    (h : acc.length ≤ 2047) :
    (names.foldl (fun a n => strncatCap 2047 (strncatCap 2047 a n) ['\n']) acc).length
      ≤ 2047 := by
  induction names generalizing acc with
  | nil => simpa using h
  | cons x xs ih =>
    simp only [List.foldl_cons]
    exact ih _ (strncatCap_le _ _ _ (strncatCap_le _ _ _ h))

theorem catLines_length_cons (x : List Char) (xs : List (List Char)) :
    (catLines (x :: xs)).length = x.length + 1 + (catLines xs).length := by
  simp [catLines]
  omega

theorem foldl_strncat_fits (names : List (List Char)) (acc : List Char)
    (h : acc.length + (catLines names).length ≤ 2047) :
    names.foldl (fun a n => strncatCap 2047 (strncatCap 2047 a n) ['\n']) acc
      = acc ++ catLines names := by
  induction names generalizing acc with
  | nil => simp [catLines]
  | cons x xs ih =>
    rw [catLines_length_cons] at h
    simp only [List.foldl_cons]
    rw [strncatCap_full 2047 acc x (by omega)]
    rw [strncatCap_full 2047 (acc ++ x) ['\n']
      (by rw [List.length_append]; simp; omega)]
    rw [ih (acc ++ x ++ ['\n'])
      (by rw [List.length_append, List.length_append]; simp; omega)]
    simp [catLines]

theorem catLines_append (a b : List (List Char)) :
    catLines (a ++ b) = catLines a ++ catLines b := by
  induction a with
  | nil => simp [catLines]
  | cons x xs ih => simp [catLines, ih]

theorem nameLines_length_ge (g : List String) : g.length ≤ (nameLines g).length := by
  induction g with
  | nil => simp [nameLines, catLines]
  | cons x xs ih =>
    unfold nameLines at ih ⊢
    rw [List.map_cons, catLines_length_cons, List.length_cons]
    omega

theorem scanGoC_le (entries : List DirEnt) (acc : List String) (h : acc.length < 256) :
    (scanGoC entries acc).length ≤ 256 := by
  induction entries generalizing acc with
  | nil =>
    unfold scanGoC
    rw [List.length_reverse]
    omega
  | cons e es ih =>
    unfold scanGoC
    by_cases hc : e.isReg = true ∧ extOf e.name = some (".c")
    · rw [if_pos hc]
      by_cases hl : 256 ≤ (e.name :: acc).length
      · rw [if_pos hl]
        rw [List.length_reverse, List.length_cons]
        omega
      · rw [if_neg hl]
        refine ih _ ?_
        rw [List.length_cons] at hl ⊢
        omega
    · rw [if_neg hc]
      exact ih _ h

/-! ### Backend `TAR` path (S3.c lines 347-477, mirrored by S2) -/

/-- Outcome of the external commands the `TAR` handler runs: the exit status
of the piped `find | xargs tar` command and the bytes it left in the
temporary file, the matching-file count from `find | wc -l`, and the status
and bytes of the alternative tar attempt. -/
structure TarRun where
  tarStatus : Int
  tarBytes : List Nat
  matchCount : Nat
  altStatus : Int
  altBytes : List Nat
deriving DecidableEq

/-- Response of the backend `TAR` handler. -/
inductive TarResp
  | errorLine (msg : String)
  | sized (n : Nat) (bytes : List Nat)
deriving DecidableEq

/-- The `TAR .txt` handler of S3 (S3.c lines 396-476): if the tar command
succeeded its output is sent behind a size line; if it failed and no file
matches, the temporary file is truncated to an empty file whose zero bytes
are sent behind a `0` size line; if it failed with matches, the alternative
command decides between its output and the tar-failure error line. -/
def s3TarRespond (r : TarRun) : TarResp :=
  if r.tarStatus = 0 then TarResp.sized r.tarBytes.length r.tarBytes
  else if r.matchCount = 0 then TarResp.sized 0 []
  else if r.altStatus = 0 then TarResp.sized r.altBytes.length r.altBytes
  else TarResp.errorLine ("ERROR: Failed to create tar file\n")

/-- Outcome of the external tar pipeline run by the sourceCode-tier
`downltar` (S1.c lines 1022-1034): the bytes the pipeline left in the
temporary file. The command ends in `|| echo 'empty'`, so its exit status is
always 0 and the handler branches only on the resulting file's size. -/
structure CTarRun where
  tarBytes : List Nat
deriving DecidableEq

/-- The `.c` branch of `handle_downltar` (S1.c lines 976-1084): if the tar
file is missing or empty the handler rewrites it as an empty file and sends
a `0` size line with zero bytes; otherwise the tar utility's bytes are sent
unchanged behind their size line. An error line is sent only on filesystem
failures (mkstemp or fopen), never because of an empty match set. -/
def s1CTarRespond (r : CTarRun) : TarResp :=
  if r.tarBytes.length = 0 then TarResp.sized 0 []
  else TarResp.sized r.tarBytes.length r.tarBytes

/-- Modelled from the spec: the tar utility itself is outside the sources,
and the spec's contract for it speaks of a "valid, well-formed empty
archive". A well-formed empty tar archive consists solely of zero-filled
512-byte blocks and contains at least the two mandatory end-of-archive
blocks, so it holds at least 1024 bytes, a multiple of 512, all zero. -/
def isWellFormedEmptyTar (bytes : List Nat) : Prop :=
  bytes.length % 512 = 0 ∧ 1024 ≤ bytes.length ∧ ∀ b ∈ bytes, b = 0

/-! ### Claim theorems C1, C2, C6, C9 -/

/-- Claim C1: false on the code for the archive class. `handle_upload`
forwards `.zip` files to S4, but `handle_download` has no `.zip` branch and
answers `ERROR: Unsupported file type` without contacting S4, so the
store-then-fetch round trip returns an error for archives rather than the
original bytes. -/
theorem c1_archive_download_never_reaches_backend :
    uploadForwardTarget (".zip") = some Backend.S4 ∧
    handle_download_action ("~S1/folder/sample.zip") = DownloadAction.errorUnsupported ∧
    downloadErrorResponse DownloadAction.errorUnsupported
      = some ("ERROR: Unsupported file type\n") ∧
    ¬ downloadErrorResponse DownloadAction.errorUnsupported = none := by
  refine ⟨by decide, ?_, by decide, by decide⟩
  decide

/-- Claim C2: false on the code for the archive class. `handle_remove`
returns failure for `.zip` without contacting S4, so `removef` answers the
generic removal error, and the subsequent `downlf` answers
`ERROR: Unsupported file type`, which is not the not-found error. -/
theorem c2_remove_then_download_archive_mismatch :
    handle_remove_action ("~S1/folder/sample.zip") = RemoveAction.unsupported ∧
    removeResultResponse (-1) = ("ERROR: File not found or cannot remove\n") ∧
    handle_download_action ("~S1/folder/sample.zip") = DownloadAction.errorUnsupported ∧
    ¬ downloadErrorResponse DownloadAction.errorUnsupported = some notFoundResponse := by
  refine ⟨?_, by decide, ?_, by decide⟩ <;> decide

/-- Claim C6: a `downltar` request naming the archive class is answered by an
immediate error line with no backend contact, and any file type outside the
four known extensions is answered by the immediate invalid-filetype error,
likewise with no backend contact. -/
theorem c6_downltar_archive_and_unknown_rejected (s : String)
    (h1 : s ≠ (".c")) (h2 : s ≠ (".pdf")) (h3 : s ≠ (".txt")) (h4 : s ≠ (".zip")) :
    handle_downltar_action (".zip") = TarAction.errorUnsupported ∧
    tarActionContactsBackend (handle_downltar_action (".zip")) = false ∧
    tarActionImmediateError (handle_downltar_action (".zip"))
      = some ("ERROR: Unsupported filetype\n") ∧
    handle_downltar_action s = TarAction.errorInvalid ∧
    tarActionContactsBackend (handle_downltar_action s) = false ∧
    tarActionImmediateError (handle_downltar_action s)
      = some ("ERROR: Invalid filetype (supported: .c, .pdf, .txt, .zip)\n") := by
  have hs : handle_downltar_action s = TarAction.errorInvalid := by
    unfold handle_downltar_action
    rw [if_pos ⟨h1, h2, h3, h4⟩]
  refine ⟨by decide, by decide, by decide, hs, ?_, ?_⟩ <;>
    rw [hs] <;> rfl

/-- Witness for `c6_downltar_archive_and_unknown_rejected` at the concrete
file type `.exe`. -/
theorem c6_downltar_archive_and_unknown_rejected_witness :
    handle_downltar_action (".zip") = TarAction.errorUnsupported ∧
    tarActionContactsBackend (handle_downltar_action (".zip")) = false ∧
    tarActionImmediateError (handle_downltar_action (".zip"))
      = some ("ERROR: Unsupported filetype\n") ∧
    handle_downltar_action (".exe") = TarAction.errorInvalid ∧
    tarActionContactsBackend (handle_downltar_action (".exe")) = false ∧
    tarActionImmediateError (handle_downltar_action (".exe"))
      = some ("ERROR: Invalid filetype (supported: .c, .pdf, .txt, .zip)\n") :=
  c6_downltar_archive_and_unknown_rejected (".exe")
    (by decide) (by decide) (by decide) (by decide)

/-- Claim C9: when the `uploadf` size token parses to a negative number,
`prcclient` responds `ERROR: Invalid file size` immediately, reads zero
payload bytes, and keeps the command loop (and so the connection) running. -/
theorem c9_negative_upload_size_rejected (f d z : String) (h : atolM z < 0) :
    prcclient_uploadf_step (some f) (some d) (some z)
      = UploadfStep.respond ("ERROR: Invalid file size\n") 0 true := by
  simp only [prcclient_uploadf_step]
  rw [if_pos h]

/-- Witness for `c9_negative_upload_size_rejected` at the size token `-4`. -/
theorem c9_negative_upload_size_rejected_witness :
    atolM ("-4") < 0 ∧
    prcclient_uploadf_step (some ("notes.c")) (some ("~S1/docs")) (some ("-4"))
      = UploadfStep.respond ("ERROR: Invalid file size\n") 0 true :=
  ⟨by decide, c9_negative_upload_size_rejected ("notes.c") ("~S1/docs") ("-4") (by decide)⟩

/-- Claim C3: for an `uploadf` of a file with a recognized non-sourceCode
extension, whatever the backend acknowledgement, the local copy under the
dispatcher's root is deleted; success is reported exactly when the backend
acknowledged `SUCCESS`, failure otherwise; every directory the pruning
removed is distinct from the dispatcher's root, lies on the chain leading to
the upload directory, and contains no file; and conversely, on success, when
the chain to the upload directory holds no other file and no foreign
subdirectory, every now-empty directory on that chain up to (not including)
the root is actually removed — so in both outcomes no copy remains under the
dispatcher's own root. -/
theorem c3_upload_forward_leaves_no_local_copy (base destSub : List String)
    (filename : String) (content : List Nat) (fs : FS) (ack : Bool) (ext : String)
    (hx : extOf filename = some ext) (hc : ext ≠ (".c"))
    (ht : uploadForwardTarget ext ≠ none) :
    assocLookup (handle_upload_model base destSub filename content fs ack).1.files
        ((base ++ destSub) ++ [filename]) = none ∧
    (handle_upload_model base destSub filename content fs ack).2
      = (if ack = true then 0 else -1) ∧
    (∀ d, d ∈ prefixesOf (base ++ destSub) ++ fs.dirs →
      d ∉ (handle_upload_model base destSub filename content fs ack).1.dirs →
      d ≠ base ∧ leadsTo d (base ++ destSub) = true ∧
        (handle_upload_model base destSub filename content fs ack).1.files.all
          (fun f => !(isUnderB d f.1)) = true) ∧
    (ack = true → destSub ≠ [] →
      fs.files.all (fun f => !(isUnderB (base ++ destSub.take 1) f.1)) = true →
      (∀ e ∈ fs.dirs, isUnderB (base ++ destSub.take 1) e = true →
        leadsTo e (base ++ destSub) = true) →
      ∀ p, p ≠ [] → leadsTo p destSub = true →
        (base ++ p) ∉ (handle_upload_model base destSub filename content fs ack).1.dirs) := by
  cases htar : uploadForwardTarget ext with
  | none => exact absurd htar ht
  | some b =>
    have he : handle_upload_model base destSub filename content fs ack
        = uploadForwardPhase base destSub filename
            (localWriteFS base destSub filename content fs) ack := by
      simp only [handle_upload_model, hx]
      rw [if_neg hc]
      simp only [htar]
    rw [he]
    have hucl := uploadForwardPhase_clean base destSub filename
      (localWriteFS base destSub filename content fs) ack
    refine ⟨hucl.1, hucl.2.1, hucl.2.2, ?_⟩
    intro hack hsub hfile hdirs p hp hps
    subst hack
    have hf2 : ((⟨assocErase (localWriteFS base destSub filename content fs).files
        ((base ++ destSub) ++ [filename]),
        (localWriteFS base destSub filename content fs).dirs⟩ : FS)).files.all
        (fun f => !(isUnderB (base ++ destSub.take 1) f.1)) = true := by
      show (assocErase (assocInsert fs.files ((base ++ destSub) ++ [filename]) content)
          ((base ++ destSub) ++ [filename])).all
          (fun f => !(isUnderB (base ++ destSub.take 1) f.1)) = true
      rw [assocErase_assocInsert]
      rw [List.all_eq_true] at hfile ⊢
      intro f hfm
      exact hfile f (mem_assocErase hfm)
    have hd2 : ∀ e ∈ ((⟨assocErase (localWriteFS base destSub filename content fs).files
        ((base ++ destSub) ++ [filename]),
        (localWriteFS base destSub filename content fs).dirs⟩ : FS)).dirs,
        isUnderB (base ++ destSub.take 1) e = true →
          leadsTo e (base ++ destSub) = true := by
      intro e hemem hu
      have hemem2 : e ∈ prefixesOf (base ++ destSub) ++ fs.dirs := hemem
      rcases List.mem_append.mp hemem2 with h1 | h1
      · unfold prefixesOf at h1
        rw [List.mem_map] at h1
        obtain ⟨i, hi, hie⟩ := h1
        rw [← hie]
        exact leadsTo_take (base ++ destSub) (i + 1)
      · exact hdirs e h1 hu
    have hin2 : ∀ q, q ≠ [] → leadsTo q destSub = true →
        (base ++ q) ∈ ((⟨assocErase (localWriteFS base destSub filename content fs).files
          ((base ++ destSub) ++ [filename]),
          (localWriteFS base destSub filename content fs).dirs⟩ : FS)).dirs := by
      intro q hq hqd
      have hmp : (base ++ q) ∈ prefixesOf (base ++ destSub) :=
        mem_prefixesOf (leadsTo_append_left base q destSub hqd)
          (append_ne_nil_right base q hq)
      exact List.mem_append.mpr (Or.inl hmp)
    exact pruneUpFuel_complete ((base ++ destSub).length + 1) base
      ⟨assocErase (localWriteFS base destSub filename content fs).files
        ((base ++ destSub) ++ [filename]),
        (localWriteFS base destSub filename content fs).dirs⟩
      destSub hsub (by rw [List.length_append]; omega) hf2 hd2 hin2 p hp hps

/-- Witness for `c3_upload_forward_leaves_no_local_copy` at a concrete `.txt`
upload acknowledged by the backend: the local copy is gone, success is
reported, and the now-empty `docs` directory has been pruned. -/
theorem c3_upload_forward_leaves_no_local_copy_witness :
    extOf ("n.txt") = some (".txt") ∧
    (".txt" : String) ≠ (".c") ∧
    uploadForwardTarget (".txt") ≠ none ∧
    assocLookup
        (handle_upload_model [("home"), ("S1")] [("docs")] ("n.txt") [1, 2]
          ⟨[], []⟩ true).1.files
        (([("home"), ("S1")] ++ [("docs")]) ++ [("n.txt")]) = none ∧
    (handle_upload_model [("home"), ("S1")] [("docs")] ("n.txt") [1, 2] ⟨[], []⟩ true).2
      = (if true = true then 0 else -1) ∧
    ([("home"), ("S1")] ++ [("docs")])
      ∉ (handle_upload_model [("home"), ("S1")] [("docs")] ("n.txt") [1, 2]
          ⟨[], []⟩ true).1.dirs :=
  ⟨by decide, by decide, by decide,
    (c3_upload_forward_leaves_no_local_copy [("home"), ("S1")] [("docs")] ("n.txt") [1, 2]
      ⟨[], []⟩ true (".txt") (by decide) (by decide) (by decide)).1,
    (c3_upload_forward_leaves_no_local_copy [("home"), ("S1")] [("docs")] ("n.txt") [1, 2]
      ⟨[], []⟩ true (".txt") (by decide) (by decide) (by decide)).2.1,
    (c3_upload_forward_leaves_no_local_copy [("home"), ("S1")] [("docs")] ("n.txt") [1, 2]
      ⟨[], []⟩ true (".txt") (by decide) (by decide) (by decide)).2.2.2
      rfl (by decide) rfl (fun e he _ => absurd he (List.not_mem_nil e))
      [("docs")] (by decide) (by decide)⟩

/-- Claim C4: a backend `STORE` whose payload transfer is truncated (fewer
than the declared bytes arrive) deletes the partially written file before
reporting `ERROR`, so no partial file remains on disk; a complete transfer
stores exactly the received bytes and answers `SUCCESS`. -/
theorem c4_backend_store_truncation (base rel : List String) (declared : Nat)
    (received : List Nat) (fs : FS) (hle : received.length ≤ declared) :
    (received.length < declared →
      (backendStoreRun base rel declared received fs).2 = StoreResp.error ∧
      assocLookup (backendStoreRun base rel declared received fs).1.files
        (base ++ rel) = none) ∧
    (received.length = declared →
      (backendStoreRun base rel declared received fs).2 = StoreResp.success ∧
      assocLookup (backendStoreRun base rel declared received fs).1.files
        (base ++ rel) = some received) := by
  constructor
  · intro hlt
    have hne : received.length ≠ declared := Nat.ne_of_lt hlt
    unfold backendStoreRun
    rw [if_pos hne]
    exact ⟨rfl, assocLookup_assocErase _ _⟩
  · intro heq
    unfold backendStoreRun
    rw [if_neg (not_not_intro heq)]
    exact ⟨rfl, assocLookup_assocInsert _ _ _⟩

/-- Witness for `c4_backend_store_truncation` at a concrete truncated `STORE`
of a 2-byte declaration of which only one byte arrived. -/
theorem c4_backend_store_truncation_witness :
    ([7] : List Nat).length ≤ 2 ∧
    (([7] : List Nat).length < 2 →
      (backendStoreRun [("S3")] [("docs"), ("a.txt")] 2 [7] ⟨[], []⟩).2 = StoreResp.error ∧
      assocLookup (backendStoreRun [("S3")] [("docs"), ("a.txt")] 2 [7] ⟨[], []⟩).1.files
        ([("S3")] ++ [("docs"), ("a.txt")]) = none) ∧
    (([7] : List Nat).length = 2 →
      (backendStoreRun [("S3")] [("docs"), ("a.txt")] 2 [7] ⟨[], []⟩).2 = StoreResp.success ∧
      assocLookup (backendStoreRun [("S3")] [("docs"), ("a.txt")] 2 [7] ⟨[], []⟩).1.files
        ([("S3")] ++ [("docs"), ("a.txt")]) = some [7]) :=
  ⟨by decide,
    (c4_backend_store_truncation [("S3")] [("docs"), ("a.txt")] 2 [7] ⟨[], []⟩ (by decide)).1,
    (c4_backend_store_truncation [("S3")] [("docs"), ("a.txt")] 2 [7] ⟨[], []⟩ (by decide)).2⟩

/-- Claim C5: false as stated over all requests. With a 2050-character name
in the sourceCode group, the 2048-byte output buffer truncates the
transmitted payload to 2047 characters: it is not the concatenation of the
four sorted groups, and the pdf group's name is dropped from it entirely
(no character of `b.pdf` — not even a `b` — is transmitted). -/
theorem c5_disp_truncation_counterexample :
    dispOutput [String.mk (List.replicate 2050 ('a'))] [("b.pdf")] [] []
      ≠ nameLines (sortNames [String.mk (List.replicate 2050 ('a'))])
        ++ nameLines (sortNames [("b.pdf")])
        ++ nameLines (sortNames ([] : List String))
        ++ nameLines (sortNames ([] : List String)) ∧
    ('b') ∉ dispOutput [String.mk (List.replicate 2050 ('a'))] [("b.pdf")] [] [] := by
  have h1 : strncatCap 2047 ([] : List Char) (List.replicate 2050 ('a'))
      = List.replicate 2047 ('a') := by
    unfold strncatCap
    rw [List.nil_append, List.length_nil, Nat.sub_zero, List.take_replicate,
      Nat.min_eq_left (by norm_num)]
  have h2 : ∀ piece : List Char, strncatCap 2047 (List.replicate 2047 ('a')) piece
      = List.replicate 2047 ('a') := by
    intro piece
    unfold strncatCap
    rw [List.length_replicate, Nat.sub_self, List.take_zero, List.append_nil]
  have hout : dispOutput [String.mk (List.replicate 2050 ('a'))] [("b.pdf")] [] []
      = List.replicate 2047 ('a') := by
    unfold dispOutput sortNames
    simp only [List.insertionSort, List.orderedInsert_nil, List.cons_append,
      List.nil_append, List.append_nil, List.map_cons, List.map_nil,
      List.foldl_cons, List.foldl_nil]
    rw [h1, h2, h2, h2]
  constructor
  · intro hcongr
    have hr1 : (nameLines (sortNames [String.mk (List.replicate 2050 ('a'))])).length
        = 2051 := by
      unfold nameLines sortNames
      simp only [List.insertionSort, List.orderedInsert_nil, List.map_cons,
        List.map_nil, catLines, List.append_nil]
      rw [List.length_append, List.length_replicate]
      rfl
    have hr2 : (nameLines (sortNames [("b.pdf")])).length = 6 := by decide
    have hr3 : (nameLines (sortNames ([] : List String))).length = 0 := by decide
    have hlen := congrArg List.length hcongr
    rw [hout, List.length_replicate, List.length_append, List.length_append,
      List.length_append, hr1, hr2, hr3] at hlen
    omega
  · intro hmem
    rw [hout, List.mem_replicate] at hmem
    exact absurd hmem.2 (by decide)

/-- Claim C5 amended: for every request whose merged result is non-empty and
fits the 2048-byte output buffer (at most 2047 rendered characters — beyond
that C10's truncation silently drops the overflow), the transmitted name
list is exactly the sourceCode group, then the pdf group, then the text
group, then the archive group, each group sorted lexicographically and a
permutation of the collected names; the groups are merged by a pure function
of the collected lists, so backend response timing cannot affect the order. -/
theorem c5_disp_groups_fixed_order_sorted (cs ps ts zs : List String)
    (hfit : (nameLines (sortNames cs) ++ nameLines (sortNames ps)
        ++ nameLines (sortNames ts) ++ nameLines (sortNames zs)).length ≤ 2047)
    (hne : cs ++ ps ++ ts ++ zs ≠ []) :
    dispOutput cs ps ts zs
      = nameLines (sortNames cs) ++ nameLines (sortNames ps)
        ++ nameLines (sortNames ts) ++ nameLines (sortNames zs) ∧
    List.Sorted (fun a b => a ≤ b) (sortNames cs) ∧ List.Perm (sortNames cs) cs ∧
    List.Sorted (fun a b => a ≤ b) (sortNames ps) ∧ List.Perm (sortNames ps) ps ∧
    List.Sorted (fun a b => a ≤ b) (sortNames ts) ∧ List.Perm (sortNames ts) ts ∧
    List.Sorted (fun a b => a ≤ b) (sortNames zs) ∧ List.Perm (sortNames zs) zs ∧
    dispfnamesWire cs ps ts zs
      = DispResp.sized (dispOutput cs ps ts zs).length (dispOutput cs ps ts zs) := by
  have hcat : catLines ((sortNames cs ++ sortNames ps ++ sortNames ts ++ sortNames zs).map
        (fun n => n.data))
      = nameLines (sortNames cs) ++ nameLines (sortNames ps)
        ++ nameLines (sortNames ts) ++ nameLines (sortNames zs) := by
    rw [List.map_append, List.map_append, List.map_append,
      catLines_append, catLines_append, catLines_append]
    rfl
  have heq : dispOutput cs ps ts zs
      = nameLines (sortNames cs) ++ nameLines (sortNames ps)
        ++ nameLines (sortNames ts) ++ nameLines (sortNames zs) := by
    unfold dispOutput
    rw [foldl_strncat_fits _ [] (by rw [hcat]; simpa using hfit), hcat]
    rfl
  have hpos : 0 < (dispOutput cs ps ts zs).length := by
    rw [heq]
    have hlcs : (sortNames cs).length = cs.length :=
      (List.perm_insertionSort (fun a b => a ≤ b) cs).length_eq
    have hlps : (sortNames ps).length = ps.length :=
      (List.perm_insertionSort (fun a b => a ≤ b) ps).length_eq
    have hlts : (sortNames ts).length = ts.length :=
      (List.perm_insertionSort (fun a b => a ≤ b) ts).length_eq
    have hlzs : (sortNames zs).length = zs.length :=
      (List.perm_insertionSort (fun a b => a ≤ b) zs).length_eq
    have h1 := nameLines_length_ge (sortNames cs)
    have h2 := nameLines_length_ge (sortNames ps)
    have h3 := nameLines_length_ge (sortNames ts)
    have h4 := nameLines_length_ge (sortNames zs)
    have htot : 0 < cs.length + ps.length + ts.length + zs.length := by
      rcases Nat.eq_zero_or_pos (cs.length + ps.length + ts.length + zs.length) with h0 | h0
      · exfalso
        apply hne
        have e1 : cs = [] := List.length_eq_zero.mp (by omega)
        have e2 : ps = [] := List.length_eq_zero.mp (by omega)
        have e3 : ts = [] := List.length_eq_zero.mp (by omega)
        have e4 : zs = [] := List.length_eq_zero.mp (by omega)
        rw [e1, e2, e3, e4]
        rfl
      · exact h0
    rw [List.length_append, List.length_append, List.length_append]
    omega
  refine ⟨heq, List.sorted_insertionSort _ cs, List.perm_insertionSort _ cs,
    List.sorted_insertionSort _ ps, List.perm_insertionSort _ ps,
    List.sorted_insertionSort _ ts, List.perm_insertionSort _ ts,
    List.sorted_insertionSort _ zs, List.perm_insertionSort _ zs, ?_⟩
  unfold dispfnamesWire
  rw [if_neg (by omega)]

/-- Witness for `c5_disp_groups_fixed_order_sorted` at one small name per
group (text group empty). -/
theorem c5_disp_groups_fixed_order_sorted_witness :
    (nameLines (sortNames [("a.c")]) ++ nameLines (sortNames [("b.pdf")])
        ++ nameLines (sortNames ([] : List String))
        ++ nameLines (sortNames [("c.zip")])).length ≤ 2047 ∧
    [("a.c")] ++ [("b.pdf")] ++ ([] : List String) ++ [("c.zip")] ≠ [] ∧
    dispOutput [("a.c")] [("b.pdf")] [] [("c.zip")]
      = nameLines (sortNames [("a.c")]) ++ nameLines (sortNames [("b.pdf")])
        ++ nameLines (sortNames ([] : List String))
        ++ nameLines (sortNames [("c.zip")]) ∧
    dispfnamesWire [("a.c")] [("b.pdf")] [] [("c.zip")]
      = DispResp.sized (dispOutput [("a.c")] [("b.pdf")] [] [("c.zip")]).length
          (dispOutput [("a.c")] [("b.pdf")] [] [("c.zip")]) :=
  ⟨by decide, by decide,
    (c5_disp_groups_fixed_order_sorted [("a.c")] [("b.pdf")] [] [("c.zip")]
      (by decide) (by decide)).1,
    (c5_disp_groups_fixed_order_sorted [("a.c")] [("b.pdf")] [] [("c.zip")]
      (by decide) (by decide)).2.2.2.2.2.2.2.2.2⟩

/-- Claim C7: a `dispfnames` request whose merged result holds no names at
all is answered by the distinct textual `No files found` response, never by
a size line with an empty payload. -/
theorem c7_empty_result_distinct_response (cs ps ts zs : List String)
    (h1 : cs = []) (h2 : ps = []) (h3 : ts = []) (h4 : zs = []) :
    dispfnamesWire cs ps ts zs = DispResp.noFiles ∧
    dispWireBytes (dispfnamesWire cs ps ts zs) = ("No files found\n").data ∧
    (∀ n body, dispfnamesWire cs ps ts zs ≠ DispResp.sized n body) := by
  subst h1
  subst h2
  subst h3
  subst h4
  have hw : dispfnamesWire [] [] [] [] = DispResp.noFiles := by decide
  refine ⟨hw, by rw [hw]; rfl, ?_⟩
  intro n body hc
  rw [hw] at hc
  exact DispResp.noConfusion hc

/-- Witness for `c7_empty_result_distinct_response` at four empty groups. -/
theorem c7_empty_result_distinct_response_witness :
    dispfnamesWire [] [] [] [] = DispResp.noFiles ∧
    dispWireBytes (dispfnamesWire [] [] [] []) = ("No files found\n").data :=
  ⟨(c7_empty_result_distinct_response [] [] [] [] rfl rfl rfl rfl).1,
    (c7_empty_result_distinct_response [] [] [] [] rfl rfl rfl rfl).2.1⟩

/-- Claim C8: false on the code for the pdf/text tiers. With zero matching
files the piped tar command fails (GNU tar refuses to create an archive from
an empty file list), so the handler truncates the temporary file and sends a
`0` size line followed by zero bytes — and an empty byte sequence is not a
well-formed tar archive, which must contain the two zero end-of-archive
blocks. -/
theorem c8_zero_files_payload_not_wellformed :
    s3TarRespond ⟨2, [], 0, 2, []⟩ = TarResp.sized 0 [] ∧
    ¬ isWellFormedEmptyTar [] := by
  constructor
  · decide
  · intro h
    exact absurd h.2.1 (by decide)

/-- Claim C8 amended: on `downltar` for a class with zero matching files the
response is a decimal size line followed by exactly that many bytes and
never an error line. On the sourceCode tier the tar utility's archive is
passed through unchanged: whenever the utility honours its contract and
writes a well-formed empty archive (necessarily at least 1024 bytes), that
archive survives the empty-file check and is exactly what is sent, so the
transmitted payload is a valid, well-formed empty archive. On the pdf/text
tiers the piped tar command fails on an empty file list and the payload is
the zero bytes of a truncated empty file. -/
theorem c8_zero_files_sized_never_error (r : TarRun) (c : CTarRun)
    (h : r.matchCount = 0) :
    (∀ msg, s3TarRespond r ≠ TarResp.errorLine msg) ∧
    (r.tarStatus ≠ 0 → s3TarRespond r = TarResp.sized 0 []) ∧
    (r.tarStatus = 0 → s3TarRespond r = TarResp.sized r.tarBytes.length r.tarBytes) ∧
    (∀ msg, s1CTarRespond c ≠ TarResp.errorLine msg) ∧
    (isWellFormedEmptyTar c.tarBytes →
      s1CTarRespond c = TarResp.sized c.tarBytes.length c.tarBytes) := by
  have hs3 : (∀ msg, s3TarRespond r ≠ TarResp.errorLine msg) ∧
      (r.tarStatus ≠ 0 → s3TarRespond r = TarResp.sized 0 []) ∧
      (r.tarStatus = 0 → s3TarRespond r = TarResp.sized r.tarBytes.length r.tarBytes) := by
    unfold s3TarRespond
    by_cases hs : r.tarStatus = 0
    · rw [if_pos hs]
      exact ⟨fun msg hc => TarResp.noConfusion hc, fun hns => absurd hs hns, fun _ => rfl⟩
    · rw [if_neg hs, if_pos h]
      exact ⟨fun msg hc => TarResp.noConfusion hc, fun _ => rfl, fun hz => absurd hz hs⟩
  refine ⟨hs3.1, hs3.2.1, hs3.2.2, ?_, ?_⟩
  · intro msg
    unfold s1CTarRespond
    by_cases hz : c.tarBytes.length = 0
    · rw [if_pos hz]
      exact fun hc => TarResp.noConfusion hc
    · rw [if_neg hz]
      exact fun hc => TarResp.noConfusion hc
  · intro hwf
    unfold s1CTarRespond
    rw [if_neg (by have hge := hwf.2.1; omega)]

/-- Witness for `c8_zero_files_sized_never_error` at a failed backend tar run
with zero matching files, and a sourceCode-tier run where the tar utility
wrote a minimal well-formed empty archive of 1024 zero bytes. -/
theorem c8_zero_files_sized_never_error_witness :
    s3TarRespond ⟨2, [], 0, 2, []⟩ = TarResp.sized 0 [] ∧
    s1CTarRespond ⟨List.replicate 1024 0⟩
      = TarResp.sized (List.replicate 1024 0).length (List.replicate 1024 0) :=
  ⟨(c8_zero_files_sized_never_error ⟨2, [], 0, 2, []⟩ ⟨List.replicate 1024 0⟩ rfl).2.1
      (by decide),
    (c8_zero_files_sized_never_error ⟨2, [], 0, 2, []⟩ ⟨List.replicate 1024 0⟩ rfl).2.2.2.2
      ⟨by rw [List.length_replicate], by rw [List.length_replicate],
        fun b hb => List.eq_of_mem_replicate hb⟩⟩

/-- Claim C10: every `dispfnames` response is bounded — the local scan and
each backend list collect at most 256 names, the merged payload is capped at
the 2048-byte output buffer (2047 content characters plus the terminator),
and the response is always the no-files line or a size line with the
(possibly truncated) payload, never an error. -/
theorem c10_dispfnames_bounded (entries : List DirEnt) (payload : String)
    (cs ps ts zs : List String) :
    (scanLocalC entries).length ≤ 256 ∧
    (parseBackendList payload).length ≤ 256 ∧
    (dispOutput cs ps ts zs).length ≤ 2047 ∧
    (dispfnamesWire cs ps ts zs = DispResp.noFiles ∨
      dispfnamesWire cs ps ts zs
        = DispResp.sized (dispOutput cs ps ts zs).length (dispOutput cs ps ts zs)) := by
  refine ⟨?_, ?_, ?_, ?_⟩
  · exact scanGoC_le entries [] (by simp)
  · unfold parseBackendList
    rw [List.length_take]
    omega
  · exact foldl_strncat_le _ [] (by simp)
  · by_cases h : (dispOutput cs ps ts zs).length = 0
    · exact Or.inl (by unfold dispfnamesWire; rw [if_pos h])
    · exact Or.inr (by unfold dispfnamesWire; rw [if_neg h])

end DFS
